import Mathlib

/-!
Verification of the procedural terrain generator of `src/multiple_lights.cpp`
(functions `generateTerrain` and `sampleHeight`).

Modelling conventions:
* C `float` arithmetic is idealized as real arithmetic (`ℝ`).
* The external gradient-noise routine `stb_perlin_noise3` (a third-party
  library, not part of this repository) is an abstract parameter
  `noise : ℝ → ℝ → ℝ → ℝ`; the code always calls it with the three wrap
  arguments equal to 0, so those are dropped.
* The two output `std::vector`s of `generateTerrain` are modelled by the
  returned pair of lists; the prior contents of the vectors at call time are
  passed in as `vertices0` and `indices0` and discarded by the model of
  `vertices.clear(); indices.clear()`.
* The heights vector `std::vector<float> heights(N*N)`, written at `z*N + x`
  and read back only at in-range encodings of the same shape, is modelled as
  a function of the pair `(z, x)`.
* `int` and `unsigned int` index arithmetic is idealized as `ℕ` (no overflow
  occurs for any realistic grid size; the shipped program uses `N = 256`).
* `pow(h, 1.5f)` is `Real.rpow h (3/2)`.
-/

namespace Terrain

noncomputable section

/-- The octave accumulation loop of `sampleHeight`, which for
`i = 0 .. octaves-1` does `n = noise(x*f, 0, z*f); height += n*amp;
amp *= 0.5f; f *= 2.0f`, with `persistence = 0.5` and `lacunarity = 2`.
`octaveSum noise x z k amp f` is the total contribution of the remaining
`k` iterations starting from accumulator state `(amp, f)`. -/
def octaveSum (noise : ℝ → ℝ → ℝ → ℝ) (x z : ℝ) : ℕ → ℝ → ℝ → ℝ
  | 0, _, _ => 0
  | k + 1, amp, f => noise (x * f) 0 (z * f) * amp + octaveSum noise x z k (amp * (1/2)) (f * 2)

/-- `sampleHeight` from `src/multiple_lights.cpp`: translate by the scroll
offset, sum 6 octaves of noise starting from `amp = 1`, `f = freq`, map the
sum through `(h + 1)/2`, raise to the power `1.5`, scale by `amplitude`. -/
def sampleHeight (noise : ℝ → ℝ → ℝ → ℝ) (x z offsetX offsetZ amplitude freq : ℝ) : ℝ :=
  let x1 := x + offsetX
  let z1 := z + offsetZ
  let height := octaveSum noise x1 z1 6 1 freq
  let normalized := (height + 1) / 2
  let shaped := normalized ^ ((3:ℝ)/2)
  shaped * amplitude

/-- The heights grid built inside `generateTerrain`:
`heights[z*N + x] = sampleHeight(x*scale, z*scale, offsetX, offsetZ,
amplitude, freq)`; the row-major vector is modelled as a function of
`(z, x)`. -/
def buildGrid (noise : ℝ → ℝ → ℝ → ℝ) (N : ℕ) (scale offsetX offsetZ amplitude freq : ℝ) :
    ℕ → ℕ → ℝ :=
  fun z x => sampleHeight noise ((x : ℝ) * scale) ((z : ℝ) * scale) offsetX offsetZ amplitude freq

/-- `glm::normalize` on a 3-vector: divide each component by the Euclidean
length.  (For the zero vector, real division by zero yields 0 where the C
library would produce non-finite floats; `generateTerrain` never passes the
zero vector when `scale ≠ 0`.) -/
def glmNormalize (a b c : ℝ) : ℝ × ℝ × ℝ :=
  let len := Real.sqrt (a ^ 2 + b ^ 2 + c ^ 2)
  (a / len, b / len, c / len)

/-- `hl = (x > 0) ? heights[z*N + (x-1)] : heights[z*N + x]` -/
def hl (grid : ℕ → ℕ → ℝ) (z x : ℕ) : ℝ :=
  if 0 < x then grid z (x - 1) else grid z x

/-- `hr = (x < N-1) ? heights[z*N + (x+1)] : heights[z*N + x]` -/
def hr (grid : ℕ → ℕ → ℝ) (N z x : ℕ) : ℝ :=
  if x < N - 1 then grid z (x + 1) else grid z x

/-- `hd = (z > 0) ? heights[(z-1)*N + x] : heights[z*N + x]` -/
def hd (grid : ℕ → ℕ → ℝ) (z x : ℕ) : ℝ :=
  if 0 < z then grid (z - 1) x else grid z x

/-- `hu = (z < N-1) ? heights[(z+1)*N + x] : heights[z*N + x]` -/
def hu (grid : ℕ → ℕ → ℝ) (N z x : ℕ) : ℝ :=
  if z < N - 1 then grid (z + 1) x else grid z x

/-- The normal computed for the lattice point `(x, z)`:
`normal = glm::normalize(vec3(hl - hr, 2*scale, hd - hu))`. -/
def vertexNormal (grid : ℕ → ℕ → ℝ) (N : ℕ) (scale : ℝ) (z x : ℕ) : ℝ × ℝ × ℝ :=
  glmNormalize (hl grid z x - hr grid N z x) (2 * scale) (hd grid z x - hu grid N z x)

/-- The 8 floats pushed for the lattice point `(x, z)`:
position `(px, py, pz)`, normal, texture coordinates `(u, v)`.
`px = (x - N/2) * scale` is C `int` arithmetic (truncating division),
`u = (float)x / (N - 1)` divides by the `int` difference `N - 1`. -/
def vertexFloats (grid : ℕ → ℕ → ℝ) (N : ℕ) (scale : ℝ) (z x : ℕ) : List ℝ :=
  let px := (((x : ℤ) - (N : ℤ) / 2 : ℤ) : ℝ) * scale
  let pz := (((z : ℤ) - (N : ℤ) / 2 : ℤ) : ℝ) * scale
  let py := grid z x
  let n := vertexNormal grid N scale z x
  let u := (x : ℝ) / ((N - 1 : ℕ) : ℝ)
  let v := (z : ℝ) / ((N - 1 : ℕ) : ℝ)
  [px, py, pz, n.1, n.2.1, n.2.2, u, v]

/-- The index stream of `generateTerrain`: for each cell, in the push order
`i0, i2, i1, i1, i2, i3` with `i0 = z*N+x`, `i1 = z*N+(x+1)`,
`i2 = (z+1)*N+x`, `i3 = (z+1)*N+(x+1)`. -/
def terrainIndexList (N : ℕ) : List ℕ :=
  (List.range (N - 1)).flatMap fun z =>
    (List.range (N - 1)).flatMap fun x =>
      [z * N + x, (z + 1) * N + x, z * N + (x + 1),
       z * N + (x + 1), (z + 1) * N + x, (z + 1) * N + (x + 1)]

/-- `generateTerrain` from `src/multiple_lights.cpp`.  `vertices0` and
`indices0` are the contents of the two vectors at call time; both are
discarded by `vertices.clear(); indices.clear()` before anything is pushed. -/
def generateTerrain (noise : ℝ → ℝ → ℝ → ℝ) (vertices0 : List ℝ) (indices0 : List ℕ)
    (N : ℕ) (scale offsetX offsetZ amplitude freq : ℝ) : List ℝ × List ℕ :=
  let vertices : List ℝ := []
  let indices : List ℕ := []
  let heights := buildGrid noise N scale offsetX offsetZ amplitude freq
  (vertices ++ (List.range N).flatMap fun z =>
      (List.range N).flatMap fun x => vertexFloats heights N scale z x,
   indices ++ terrainIndexList N)

/-! ## Spec-side definitions

These follow the wording of the specification (spec.md §4 and §8) rather
than the source, for comparison with the definitions above. -/

/-- Spec side (§4.1, claim C2): the octave sum written in closed form — the
octave `i` contribution is `noise` sampled at frequency `freq * 2^i` (third
noise axis held constant), weighted by amplitude `1 * (1/2)^i`; afterwards
normalize by `(sum + 1)/2`, shape by the power `1.5`, scale by `amplitude`. -/
def sampleHeightSpec (noise : ℝ → ℝ → ℝ → ℝ) (x z offsetX offsetZ amplitude freq : ℝ) : ℝ :=
  let sum := ∑ i ∈ Finset.range 6,
    noise ((x + offsetX) * (freq * 2 ^ i)) 0 ((z + offsetZ) * (freq * 2 ^ i)) * (1/2 : ℝ) ^ i
  ((sum + 1) / 2) ^ ((3:ℝ)/2) * amplitude

/-- The triangles of the mesh, as corner triples: for each cell `(x, z)`,
triangle A = `(i0, i2, i1)` and triangle B = `(i1, i2, i3)`. -/
def terrainTriangles (N : ℕ) : List (ℕ × ℕ × ℕ) :=
  (List.range (N - 1)).flatMap fun z =>
    (List.range (N - 1)).flatMap fun x =>
      [(z * N + x, (z + 1) * N + x, z * N + (x + 1)),
       (z * N + (x + 1), (z + 1) * N + x, (z + 1) * N + (x + 1))]

/-- Spec side (§4.3, claim C5): for each cell `(x, z)` with `x, z` in
`[0, N-2]` in row-major order, emit triangle A = `(i0, i2, i1)` followed by
triangle B = `(i1, i2, i3)`. -/
def terrainIndicesSpec (N : ℕ) : List ℕ :=
  (List.range (N - 1)).flatMap fun z =>
    (List.range (N - 1)).flatMap fun x =>
      [z * N + x, (z + 1) * N + x, z * N + (x + 1)] ++
      [z * N + (x + 1), (z + 1) * N + x, (z + 1) * N + (x + 1)]

/-- Spec side (§4.3, claim C6): the vertex of lattice point `(x, z)` —
position centering the lattice on the origin, elevation from the grid,
central-difference normal with edge clamping phrased as reusing the point
height when the neighbor is missing, texture coordinates `x/(N-1)`,
`z/(N-1)`. -/
def specVertex (grid : ℕ → ℕ → ℝ) (N : ℕ) (scale : ℝ) (z x : ℕ) : List ℝ :=
  let px := ((x : ℝ) - ((N / 2 : ℕ) : ℝ)) * scale
  let pz := ((z : ℝ) - ((N / 2 : ℕ) : ℝ)) * scale
  let py := grid z x
  let hLeft := if x = 0 then grid z x else grid z (x - 1)
  let hRight := if x = N - 1 then grid z x else grid z (x + 1)
  let hDown := if z = 0 then grid z x else grid (z - 1) x
  let hUp := if z = N - 1 then grid z x else grid (z + 1) x
  let n := glmNormalize (hLeft - hRight) (2 * scale) (hDown - hUp)
  let u := (x : ℝ) / ((N : ℝ) - 1)
  let v := (z : ℝ) / ((N : ℝ) - 1)
  [px, py, pz, n.1, n.2.1, n.2.2, u, v]

end

/-! ## Helper lemmas -/

theorem octaveSum_zero (noise : ℝ → ℝ → ℝ → ℝ) (x z amp f : ℝ) :
    octaveSum noise x z 0 amp f = 0 := rfl

theorem octaveSum_succ (noise : ℝ → ℝ → ℝ → ℝ) (x z : ℝ) (k : ℕ) (amp f : ℝ) :
    octaveSum noise x z (k + 1) amp f =
      noise (x * f) 0 (z * f) * amp + octaveSum noise x z k (amp * (1/2)) (f * 2) := rfl

theorem length_flatMap_const {α : Type} (f : ℕ → List α) (c : ℕ)
    (h : ∀ z, (f z).length = c) (n : ℕ) :
    ((List.range n).flatMap f).length = n * c := by
  induction n with
  | zero => simp
  | succ m ih =>
    rw [List.range_succ, List.flatMap_append, List.length_append, ih]
    simp [h, Nat.succ_mul]

theorem length_flatMap_flatMap {α : Type} (n m c : ℕ) (f : ℕ → ℕ → List α)
    (h : ∀ z x, (f z x).length = c) :
    ((List.range n).flatMap fun z => (List.range m).flatMap fun x => f z x).length = n * (m * c) :=
  length_flatMap_const (fun z => (List.range m).flatMap fun x => f z x) (m * c)
    (fun z => length_flatMap_const (fun x => f z x) c (h z) m) n

theorem flatMap_congr_mem {α β : Type} (l : List α) (f g : α → List β)
    (h : ∀ a ∈ l, f a = g a) : l.flatMap f = l.flatMap g := by
  induction l with
  | nil => rfl
  | cons a t ih =>
    simp only [List.flatMap_cons]
    rw [h a (List.mem_cons_self a t), ih fun b hb => h b (List.mem_cons_of_mem a hb)]

/-- The index stream is the flattening of the triangle list. -/
theorem terrainIndexList_eq_triangles (N : ℕ) :
    terrainIndexList N = (terrainTriangles N).flatMap fun t => [t.1, t.2.1, t.2.2] := by
  simp only [terrainIndexList, terrainTriangles, List.flatMap_assoc]
  rfl

/-- Absolute bound on the octave loop: with every noise value in `[-1, 1]`
and a nonnegative starting amplitude, `k` octaves sum to at most
`amp * (2 - 2 * (1/2)^k)` in absolute value. -/
theorem octaveSum_abs_le (noise : ℝ → ℝ → ℝ → ℝ) (hn : ∀ a b c, |noise a b c| ≤ 1)
    (x z : ℝ) (k : ℕ) : ∀ amp f : ℝ, 0 ≤ amp →
    |octaveSum noise x z k amp f| ≤ amp * (2 - 2 * (1/2 : ℝ) ^ k) := by
  induction k with
  | zero => intro amp f hamp; simp [octaveSum_zero]
  | succ m ih =>
    intro amp f hamp
    rw [octaveSum_succ]
    calc |noise (x * f) 0 (z * f) * amp + octaveSum noise x z m (amp * (1/2)) (f * 2)|
        ≤ |noise (x * f) 0 (z * f) * amp| + |octaveSum noise x z m (amp * (1/2)) (f * 2)| :=
          abs_add _ _
      _ ≤ 1 * amp + (amp * (1/2)) * (2 - 2 * (1/2 : ℝ) ^ m) := by
          have h1 : |noise (x * f) 0 (z * f) * amp| ≤ 1 * amp := by
            rw [abs_mul, abs_of_nonneg hamp]
            exact mul_le_mul_of_nonneg_right (hn _ _ _) hamp
          have h2 := ih (amp * (1/2)) (f * 2) (by positivity)
          linarith
      _ = amp * (2 - 2 * (1/2 : ℝ) ^ (m + 1)) := by ring

/-- Full expansion of the 6-octave loop. -/
theorem octaveSum_six (noise : ℝ → ℝ → ℝ → ℝ) (x z amp f : ℝ) :
    octaveSum noise x z 6 amp f =
      noise (x * f) 0 (z * f) * amp
      + noise (x * (f * 2)) 0 (z * (f * 2)) * (amp * (1/2))
      + noise (x * (f * 2 * 2)) 0 (z * (f * 2 * 2)) * (amp * (1/2) * (1/2))
      + noise (x * (f * 2 * 2 * 2)) 0 (z * (f * 2 * 2 * 2)) * (amp * (1/2) * (1/2) * (1/2))
      + noise (x * (f * 2 * 2 * 2 * 2)) 0 (z * (f * 2 * 2 * 2 * 2))
          * (amp * (1/2) * (1/2) * (1/2) * (1/2))
      + noise (x * (f * 2 * 2 * 2 * 2 * 2)) 0 (z * (f * 2 * 2 * 2 * 2 * 2))
          * (amp * (1/2) * (1/2) * (1/2) * (1/2) * (1/2)) := by
  rw [show (6:ℕ) = 5 + 1 from rfl, octaveSum_succ, show (5:ℕ) = 4 + 1 from rfl, octaveSum_succ,
    show (4:ℕ) = 3 + 1 from rfl, octaveSum_succ, show (3:ℕ) = 2 + 1 from rfl, octaveSum_succ,
    show (2:ℕ) = 1 + 1 from rfl, octaveSum_succ, show (1:ℕ) = 0 + 1 from rfl, octaveSum_succ,
    octaveSum_zero]
  ring

/-- The largest index of the cell `(x, z)` is in range. -/
theorem cellIndex_lt (N z x : ℕ) (hz : z < N - 1) (hx : x < N - 1) :
    (z + 1) * N + (x + 1) < N ^ 2 := by
  have h2 : (z + 1) * N ≤ (N - 1) * N := Nat.mul_le_mul_right N (by omega)
  have h3 : (N - 1) * N + N = N * N := by
    have h4 : N - 1 + 1 = N := by omega
    calc (N - 1) * N + N = (N - 1 + 1) * N := (Nat.succ_mul _ _).symm
      _ = N * N := by rw [h4]
  rw [pow_two]
  omega

/-- Normalizing a nonzero vector yields a vector whose squared components
sum to 1. -/
theorem glmNormalize_sq_sum (a b c : ℝ) (h : 0 < a ^ 2 + b ^ 2 + c ^ 2) :
    (glmNormalize a b c).1 ^ 2 + (glmNormalize a b c).2.1 ^ 2 +
      (glmNormalize a b c).2.2 ^ 2 = 1 := by
  simp only [glmNormalize]
  have hs : Real.sqrt (a ^ 2 + b ^ 2 + c ^ 2) ^ 2 = a ^ 2 + b ^ 2 + c ^ 2 := Real.sq_sqrt h.le
  have hne : Real.sqrt (a ^ 2 + b ^ 2 + c ^ 2) ≠ 0 := by positivity
  field_simp

/-- Pointwise agreement between the 8 floats pushed by the source and the
spec formulas, at in-range lattice points of a grid with N ≥ 2. -/
theorem vertexFloats_eq_specVertex (grid : ℕ → ℕ → ℝ) (N : ℕ) (scale : ℝ) (z x : ℕ)
    (hN : 2 ≤ N) (hz : z < N) (hx : x < N) :
    vertexFloats grid N scale z x = specVertex grid N scale z x := by
  have hcast : ((N - 1 : ℕ) : ℝ) = (N : ℝ) - 1 := by
    rw [Nat.cast_sub (by omega)]
    norm_num
  have hdiv : ((N / 2 : ℕ) : ℤ) = (N : ℤ) / 2 := by omega
  have h2 : (((N : ℤ) / 2 : ℤ) : ℝ) = ((N / 2 : ℕ) : ℝ) := by
    rw [← hdiv]
    norm_cast
  have hpx : (((x : ℤ) - (N : ℤ) / 2 : ℤ) : ℝ) = (x : ℝ) - ((N / 2 : ℕ) : ℝ) := by
    push_cast [h2]
    ring
  have hpz : (((z : ℤ) - (N : ℤ) / 2 : ℤ) : ℝ) = (z : ℝ) - ((N / 2 : ℕ) : ℝ) := by
    push_cast [h2]
    ring
  have hLeq : hl grid z x = (if x = 0 then grid z x else grid z (x - 1)) := by
    rcases Nat.eq_zero_or_pos x with h | h
    · simp [hl, h]
    · simp [hl, h, h.ne']
  have hReq : hr grid N z x = (if x = N - 1 then grid z x else grid z (x + 1)) := by
    by_cases h : x < N - 1
    · have h1 : x ≠ N - 1 := by omega
      simp [hr, h, h1]
    · have h1 : x = N - 1 := by omega
      simp [hr, h, h1]
  have hDeq : hd grid z x = (if z = 0 then grid z x else grid (z - 1) x) := by
    rcases Nat.eq_zero_or_pos z with h | h
    · simp [hd, h]
    · simp [hd, h, h.ne']
  have hUeq : hu grid N z x = (if z = N - 1 then grid z x else grid (z + 1) x) := by
    by_cases h : z < N - 1
    · have h1 : z ≠ N - 1 := by omega
      simp [hu, h, h1]
    · have h1 : z = N - 1 := by omega
      simp [hu, h, h1]
  simp only [vertexFloats, specVertex, vertexNormal, hpx, hpz, hcast, hLeq, hReq, hDeq, hUeq]

/-! ## Claim theorems -/

/-- C1: for every grid size and any scale, offsets, amplitude and frequency,
the mesh produced by generateTerrain has exactly N² vertices of 8 floats
each (8·N² floats), exactly 6·(N-1)² indices, every index lies in [0, N²),
and the index stream decomposes into triangles whose three corners are
pairwise distinct. -/
theorem generateTerrain_mesh_integrity (noise : ℝ → ℝ → ℝ → ℝ) (v0 : List ℝ) (i0 : List ℕ)
    (N : ℕ) (scale ox oz A fq : ℝ) :
    (generateTerrain noise v0 i0 N scale ox oz A fq).1.length = 8 * N ^ 2 ∧
    (generateTerrain noise v0 i0 N scale ox oz A fq).2.length = 6 * (N - 1) ^ 2 ∧
    (∀ i ∈ (generateTerrain noise v0 i0 N scale ox oz A fq).2, i < N ^ 2) ∧
    (generateTerrain noise v0 i0 N scale ox oz A fq).2 =
      ((terrainTriangles N).flatMap fun t => [t.1, t.2.1, t.2.2]) ∧
    ∀ t ∈ terrainTriangles N, t.1 ≠ t.2.1 ∧ t.1 ≠ t.2.2 ∧ t.2.1 ≠ t.2.2 := by
  refine ⟨?_, ?_, ?_, ?_, ?_⟩
  · simp only [generateTerrain, List.nil_append]
    rw [length_flatMap_flatMap N N 8
      (fun z x => vertexFloats (buildGrid noise N scale ox oz A fq) N scale z x)
      (fun z x => rfl)]
    ring
  · simp only [generateTerrain, List.nil_append, terrainIndexList]
    rw [length_flatMap_flatMap (N - 1) (N - 1) 6
      (fun z x => [z * N + x, (z + 1) * N + x, z * N + (x + 1),
        z * N + (x + 1), (z + 1) * N + x, (z + 1) * N + (x + 1)])
      (fun z x => rfl)]
    ring
  · intro i hi
    simp only [generateTerrain, List.nil_append, terrainIndexList, List.mem_flatMap,
      List.mem_range, List.mem_cons, List.not_mem_nil, or_false] at hi
    obtain ⟨z, hz, x, hx, hmem⟩ := hi
    have hb := cellIndex_lt N z x hz hx
    have hsm : (z + 1) * N = z * N + N := Nat.succ_mul z N
    rcases hmem with h | h | h | h | h | h <;> subst h <;> omega
  · exact terrainIndexList_eq_triangles N
  · intro t ht
    simp only [terrainTriangles, List.mem_flatMap, List.mem_range, List.mem_cons,
      List.not_mem_nil, or_false] at ht
    obtain ⟨z, hz, x, hx, ht⟩ := ht
    have hsm : (z + 1) * N = z * N + N := Nat.succ_mul z N
    rcases ht with rfl | rfl <;> refine ⟨?_, ?_, ?_⟩ <;> dsimp only <;> omega

/-- C3: sampleHeight and generateTerrain are deterministic — two calls with
identical inputs produce identical outputs, and regenerating with an
unchanged offset (the vectors now holding the previous mesh) reproduces the
identical mesh. -/
theorem terrain_deterministic_idempotent (noise : ℝ → ℝ → ℝ → ℝ) (v0 : List ℝ) (i0 : List ℕ)
    (N : ℕ) (scale ox oz A fq x z : ℝ) :
    sampleHeight noise x z ox oz A fq = sampleHeight noise x z ox oz A fq ∧
    generateTerrain noise v0 i0 N scale ox oz A fq =
      generateTerrain noise v0 i0 N scale ox oz A fq ∧
    generateTerrain noise (generateTerrain noise v0 i0 N scale ox oz A fq).1
        (generateTerrain noise v0 i0 N scale ox oz A fq).2 N scale ox oz A fq =
      generateTerrain noise v0 i0 N scale ox oz A fq :=
  ⟨rfl, rfl, rfl⟩

/-- C4: the scroll offset acts as a pure coordinate translation of the
sampling point. -/
theorem sampleHeight_offset_translation (noise : ℝ → ℝ → ℝ → ℝ) (x z d A fq : ℝ) :
    sampleHeight noise x z d 0 A fq = sampleHeight noise (x + d) z 0 0 A fq := by
  simp [sampleHeight]

/-- C5: for every N and all parameters, the emitted index sequence is
exactly the row-major two-triangles-per-cell sequence of the spec, hence a
function of N alone, unchanged by noise, scale, offsets, amplitude and
frequency. -/
theorem generateTerrain_indices_eq_spec (noise : ℝ → ℝ → ℝ → ℝ) (v0 : List ℝ) (i0 : List ℕ)
    (N : ℕ) (scale ox oz A fq : ℝ) :
    (generateTerrain noise v0 i0 N scale ox oz A fq).2 = terrainIndicesSpec N := rfl

/-- C2: sampleHeight translates by the offset, then sums exactly 6 octaves
with per-octave amplitude 1·(1/2)^i and frequency freq·2^i, the third noise
axis held constant, then maps the sum through (sum+1)/2, the power 1.5, and
multiplication by amplitude. -/
theorem sampleHeight_matches_octave_spec (noise : ℝ → ℝ → ℝ → ℝ) (x z ox oz A fq : ℝ) :
    sampleHeight noise x z ox oz A fq = sampleHeightSpec noise x z ox oz A fq := by
  simp only [sampleHeight, sampleHeightSpec]
  rw [octaveSum_six, show (6:ℕ) = 5 + 1 from rfl, Finset.sum_range_succ,
    show (5:ℕ) = 4 + 1 from rfl, Finset.sum_range_succ, show (4:ℕ) = 3 + 1 from rfl,
    Finset.sum_range_succ, show (3:ℕ) = 2 + 1 from rfl, Finset.sum_range_succ,
    show (2:ℕ) = 1 + 1 from rfl, Finset.sum_range_succ, show (1:ℕ) = 0 + 1 from rfl,
    Finset.sum_range_succ, Finset.sum_range_zero]
  norm_num
  ring_nf
  exact Or.inl trivial

/-- C7 counterexample: with every per-octave noise value equal to 1 (which
lies in [-1,1]) and amplitude 1, the grid entry at (0,0) is
(95/64)^1.5 ≈ 1.81, strictly above the claimed bound 1.2·A. -/
theorem sampleHeight_exceeds_claimed_envelope :
    (12/10 : ℝ) * 1 < buildGrid (fun _ _ _ => 1) 2 1 0 0 1 1 0 0 := by
  have key : buildGrid (fun _ _ _ => (1:ℝ)) 2 1 0 0 1 1 0 0 = ((95:ℝ)/64) ^ ((3:ℝ)/2) := by
    simp only [buildGrid, sampleHeight, octaveSum_six]
    norm_num
  rw [key]
  have h1 : ((95:ℝ)/64) ^ (1:ℝ) ≤ ((95:ℝ)/64) ^ ((3:ℝ)/2) :=
    Real.rpow_le_rpow_of_exponent_le (by norm_num) (by norm_num)
  rw [Real.rpow_one] at h1
  linarith

/-- C7 amended: assuming every per-octave noise value lies in [-1,1], the
amplitude is nonnegative, and the raw octave sum is at least -1 (so the
shaping power receives a nonnegative base, the domain on which the C
`powf` is defined), every sampled height lies in [-(1/10)·A, (37/20)·A];
the claimed upper bound 1.2·A does not hold, the sharp bound being
(95/64)^1.5 ≈ 1.81. -/
theorem sampleHeight_sanity_envelope (noise : ℝ → ℝ → ℝ → ℝ) (x z ox oz A fq : ℝ)
    (hn : ∀ a b c, |noise a b c| ≤ 1) (hA : 0 ≤ A)
    (hraw : -1 ≤ octaveSum noise (x + ox) (z + oz) 6 1 fq) :
    -(1/10) * A ≤ sampleHeight noise x z ox oz A fq ∧
    sampleHeight noise x z ox oz A fq ≤ (37/20) * A := by
  simp only [sampleHeight]
  have habs := octaveSum_abs_le noise hn (x + ox) (z + oz) 6 1 fq zero_le_one
  have hub : octaveSum noise (x + ox) (z + oz) 6 1 fq ≤ 63/32 := by
    have h2 := (abs_le.mp habs).2
    norm_num at h2
    linarith
  set S := octaveSum noise (x + ox) (z + oz) 6 1 fq with hS
  have hn0 : 0 ≤ (S + 1) / 2 := by linarith
  have hn1 : (S + 1) / 2 ≤ 95/64 := by linarith
  have hshape0 : 0 ≤ ((S + 1) / 2) ^ ((3:ℝ)/2) := Real.rpow_nonneg hn0 _
  have hshapeU : ((S + 1) / 2) ^ ((3:ℝ)/2) ≤ ((95:ℝ)/64) ^ ((3:ℝ)/2) :=
    Real.rpow_le_rpow hn0 hn1 (by norm_num)
  have hBle : ((95:ℝ)/64) ^ ((3:ℝ)/2) ≤ 37/20 := by
    have hB0 : (0:ℝ) ≤ ((95:ℝ)/64) ^ ((3:ℝ)/2) := Real.rpow_nonneg (by norm_num) _
    have hsq : (((95:ℝ)/64) ^ ((3:ℝ)/2)) ^ (2:ℕ) = ((95:ℝ)/64) ^ (3:ℕ) := by
      rw [← Real.rpow_natCast (((95:ℝ)/64) ^ ((3:ℝ)/2)) 2, ← Real.rpow_mul (by norm_num)]
      norm_num
    nlinarith [hsq]
  constructor
  · have hpos : (0:ℝ) ≤ ((S + 1) / 2) ^ ((3:ℝ)/2) * A := mul_nonneg hshape0 hA
    nlinarith
  · have h1 : ((S + 1) / 2) ^ ((3:ℝ)/2) * A ≤ ((95:ℝ)/64) ^ ((3:ℝ)/2) * A :=
      mul_le_mul_of_nonneg_right hshapeU hA
    have h2 : ((95:ℝ)/64) ^ ((3:ℝ)/2) * A ≤ (37/20) * A :=
      mul_le_mul_of_nonneg_right hBle hA
    linarith

theorem sampleHeight_sanity_envelope_witness :
    -(1/10) * 1 ≤ sampleHeight (fun _ _ _ => 0) 0 0 0 0 1 1 ∧
    sampleHeight (fun _ _ _ => 0) 0 0 0 0 1 1 ≤ (37/20) * 1 :=
  sampleHeight_sanity_envelope (fun _ _ _ => 0) 0 0 0 0 1 1
    (fun a b c => by norm_num) (by norm_num)
    (by rw [octaveSum_six]; norm_num)

/-- C8 counterexample: invoked with N = 1 (violating the N ≥ 2
precondition), generateTerrain silently returns a zero-triangle mesh —
one 8-float vertex and an empty index list — instead of rejecting the
input; the function has no error path at all. -/
theorem generateTerrain_degenerate_accepted :
    (generateTerrain (fun _ _ _ => 0) [] [] 1 1 0 0 1 1).2 = [] ∧
    (generateTerrain (fun _ _ _ => 0) [] [] 1 1 0 0 1 1).1.length = 8 := by
  constructor
  · rfl
  · rfl

/-- C8 amended: generateTerrain performs no precondition validation; for any
parameters it totally returns a mesh, and with N = 1 (resp. N = 0) that mesh
has one vertex and zero indices (resp. is empty) — a silent degenerate
result, not a rejection. -/
theorem generateTerrain_no_precondition_check (noise : ℝ → ℝ → ℝ → ℝ) (v0 : List ℝ)
    (i0 : List ℕ) (scale ox oz A fq : ℝ) :
    (generateTerrain noise v0 i0 1 scale ox oz A fq).1.length = 8 ∧
    (generateTerrain noise v0 i0 1 scale ox oz A fq).2 = [] ∧
    (generateTerrain noise v0 i0 0 scale ox oz A fq).1 = [] ∧
    (generateTerrain noise v0 i0 0 scale ox oz A fq).2 = [] :=
  ⟨rfl, rfl, rfl, rfl⟩

/-- C6: for every N ≥ 2, the vertex stream of generateTerrain is exactly,
lattice point by lattice point in row-major order, the spec formulas:
position ((x - N/2)·scale, grid entry, (z - N/2)·scale), the
central-difference normal with edge clamping, and texture coordinates
u = x/(N-1), v = z/(N-1) independent of elevation. -/
theorem generateTerrain_vertex_layout (noise : ℝ → ℝ → ℝ → ℝ) (v0 : List ℝ) (i0 : List ℕ)
    (N : ℕ) (scale ox oz A fq : ℝ) (hN : 2 ≤ N) :
    (generateTerrain noise v0 i0 N scale ox oz A fq).1 =
      (List.range N).flatMap fun z => (List.range N).flatMap fun x =>
        specVertex (buildGrid noise N scale ox oz A fq) N scale z x := by
  simp only [generateTerrain, List.nil_append]
  refine flatMap_congr_mem _ _ _ fun z hz => ?_
  refine flatMap_congr_mem _ _ _ fun x hx => ?_
  exact vertexFloats_eq_specVertex _ N scale z x hN
    (List.mem_range.mp hz) (List.mem_range.mp hx)

theorem generateTerrain_vertex_layout_witness :
    (generateTerrain (fun _ _ _ => 0) [] [] 2 1 0 0 1 1).1 =
      (List.range 2).flatMap fun z => (List.range 2).flatMap fun x =>
        specVertex (buildGrid (fun _ _ _ => 0) 2 1 0 0 1 1) 2 1 z x :=
  generateTerrain_vertex_layout (fun _ _ _ => 0) [] [] 2 1 0 0 1 1 (by norm_num)

/-- C9: for every grid and every scale > 0, every normal emitted by
generateTerrain has magnitude 1, and at perfectly flat lattice points (both
clamped neighbor differences zero) the normal is the canonical up vector
(0, 1, 0): normalization never receives a zero vector because the middle
component is 2·scale. -/
theorem vertexNormal_unit_and_flat_up (grid : ℕ → ℕ → ℝ) (N : ℕ) (scale : ℝ) (z x : ℕ)
    (hs : 0 < scale) :
    Real.sqrt ((vertexNormal grid N scale z x).1 ^ 2 + (vertexNormal grid N scale z x).2.1 ^ 2 +
        (vertexNormal grid N scale z x).2.2 ^ 2) = 1 ∧
    (hl grid z x = hr grid N z x → hd grid z x = hu grid N z x →
      vertexNormal grid N scale z x = (0, 1, 0)) := by
  have h2s : (0:ℝ) < 2 * scale := by linarith
  constructor
  · have hpos : 0 < (hl grid z x - hr grid N z x) ^ 2 + (2 * scale) ^ 2 +
        (hd grid z x - hu grid N z x) ^ 2 := by
      have ha := sq_nonneg (hl grid z x - hr grid N z x)
      have hc := sq_nonneg (hd grid z x - hu grid N z x)
      have hb : (0:ℝ) < (2 * scale) ^ 2 := pow_pos h2s 2
      linarith
    have hsum := glmNormalize_sq_sum (hl grid z x - hr grid N z x) (2 * scale)
      (hd grid z x - hu grid N z x) hpos
    simp only [vertexNormal]
    rw [hsum]
    exact Real.sqrt_one
  · intro h1 h2
    simp only [vertexNormal, glmNormalize, h1, h2, sub_self]
    have hlen : Real.sqrt ((0:ℝ) ^ 2 + (2 * scale) ^ 2 + 0 ^ 2) = 2 * scale := by
      rw [show (0:ℝ) ^ 2 + (2 * scale) ^ 2 + 0 ^ 2 = (2 * scale) ^ 2 by ring]
      exact Real.sqrt_sq h2s.le
    rw [hlen]
    rw [div_self h2s.ne', zero_div]

theorem vertexNormal_unit_and_flat_up_witness :
    Real.sqrt ((vertexNormal (fun _ _ => 0) 2 1 0 0).1 ^ 2 +
        (vertexNormal (fun _ _ => 0) 2 1 0 0).2.1 ^ 2 +
        (vertexNormal (fun _ _ => 0) 2 1 0 0).2.2 ^ 2) = 1 ∧
    (hl (fun _ _ => 0) 0 0 = hr (fun _ _ => 0) 2 0 0 →
      hd (fun _ _ => 0) 0 0 = hu (fun _ _ => 0) 2 0 0 →
      vertexNormal (fun _ _ => 0) 2 1 0 0 = (0, 1, 0)) :=
  vertexNormal_unit_and_flat_up (fun _ _ => 0) 2 1 0 0 (by norm_num)

/-- C10: generateTerrain clears both output vectors before writing, so its
result does not depend on the prior contents of the vectors passed in. -/
theorem generateTerrain_prior_independent (noise : ℝ → ℝ → ℝ → ℝ) (v1 : List ℝ) (i1 : List ℕ)
    (v2 : List ℝ) (i2 : List ℕ) (N : ℕ) (scale ox oz A fq : ℝ) :
    generateTerrain noise v1 i1 N scale ox oz A fq =
      generateTerrain noise v2 i2 N scale ox oz A fq := rfl

end Terrain
